import Mathlib

/-!
Verification of the deCryptid hexagonal-grid library (`hextools.py`) and
deduction engine (`deduction.py`).  Python functions are shallowly embedded
as executable Lean definitions: machine integers become `ℤ`/`ℕ`, Python
sets become `Finset`, dictionaries become association lists, raised
exceptions become `Option`/`Except` results, and the fractional cubic
coordinates handled by `HexGrid.nearest` become `ℚ`.
-/

/-! ## Grid geometry (`hextools.py`) -/

/-- A full cubic coordinate triple. -/
abbrev Pos3 := ℤ × ℤ × ℤ

/-- A grid position as accepted by `cubic`/`adjacent`/`expand`:
either an axial pair or a full cubic triple. -/
inductive HPos where
  | ax (u v : ℤ)
  | cub (u v w : ℤ)
deriving DecidableEq, Repr

/-- `cubic(u, v, w=None)`: completes the first two coordinates to a full
cubic triple; a supplied third coordinate is ignored, the third component
is always recomputed as `-u - v`. -/
def cubic : HPos → Pos3
  | .ax u v => (u, v, -u - v)
  | .cub u v _ => (u, v, -u - v)

/-- `adjacent(cubic_pos)`: the six neighbours, produced by re-completing
the input with `cubic` and then, for every ordered pair `i ≠ j` of
component indices, incrementing component `i` and decrementing `j`. -/
def adjacent (p : Pos3) : List Pos3 :=
  let c := cubic (.cub p.1 p.2.1 p.2.2)
  [ (c.1 + 1, c.2.1 - 1, c.2.2), (c.1 + 1, c.2.1, c.2.2 - 1),
    (c.1 - 1, c.2.1 + 1, c.2.2), (c.1, c.2.1 + 1, c.2.2 - 1),
    (c.1 - 1, c.2.1, c.2.2 + 1), (c.1, c.2.1 - 1, c.2.2 + 1) ]

/-- The loop body of `expand`: `radius` rounds of frontier growth, where
each round adds the neighbours of the previous round's newly added cells. -/
def expandLoop : ℕ → Finset Pos3 → Finset Pos3 → Finset Pos3
  | 0, reg, _ => reg
  | n + 1, reg, recent =>
    let new_set := recent.biUnion fun pos => (adjacent pos).toFinset
    expandLoop n (reg ∪ new_set) (new_set \ recent)

/-- `expand(region, radius)`: cubic-complete the input cells, then grow the
resulting set by `radius` adjacency rounds. -/
def expand (region : List HPos) (radius : ℕ) : Finset Pos3 :=
  let reg_set := (region.map cubic).toFinset
  expandLoop radius reg_set reg_set

/-- The cubic-sum-zero invariant `u + v + w = 0` for a coordinate triple. -/
def sumZero (p : Pos3) : Prop := p.1 + p.2.1 + p.2.2 = 0

instance (p : Pos3) : Decidable (sumZero p) := by unfold sumZero; infer_instance

/-- `axial_to_array(u, v)`: array index of an axial coordinate; Python's
`u >> 1` is arithmetic shift, i.e. floor division by two. -/
def axial_to_array (u v : ℤ) : ℤ × ℤ := (u, v + Int.fdiv u 2)

/-- `array_to_axial(row, column)`. -/
def array_to_axial (row column : ℤ) : ℤ × ℤ := (row, column - Int.fdiv row 2)

/-- Python list read `l[i]`: non-negative indices count from the front,
negative indices count from the back, and anything outside `[-len, len)`
raises `IndexError` (modelled as `none`). -/
def pyGet (l : List α) (i : ℤ) : Option α :=
  if 0 ≤ i then l.get? i.toNat
  else if 0 ≤ i + l.length then l.get? (i + l.length).toNat
  else none

/-- Python list write `l[i] = v`, with the same indexing rule as `pyGet`. -/
def pySet (l : List α) (i : ℤ) (v : α) : Option (List α) :=
  if 0 ≤ i then
    if i < l.length then some (l.set i.toNat v) else none
  else if 0 ≤ i + l.length then some (l.set (i + l.length).toNat v)
  else none

/-- `HexGrid`: the rectangular store `self._data`, a list of rows. -/
structure HexGrid (α : Type) where
  data : List (List α)
deriving DecidableEq, Repr

/-- `HexGrid.gethex(pos)`: translate the axial coordinate with
`axial_to_array` and read `self._data[i][j]` with Python indexing. -/
def HexGrid.gethex (g : HexGrid α) (pos : ℤ × ℤ) : Option α :=
  let ij := axial_to_array pos.1 pos.2
  match pyGet g.data ij.1 with
  | none => none
  | some row => pyGet row ij.2

/-- `HexGrid.sethex(pos, value)`: translate the axial coordinate and write
`self._data[i][j] = value` with Python indexing. -/
def HexGrid.sethex (g : HexGrid α) (pos : ℤ × ℤ) (value : α) :
    Option (HexGrid α) :=
  let ij := axial_to_array pos.1 pos.2
  match pyGet g.data ij.1 with
  | none => none
  | some row =>
    match pySet row ij.2 value with
    | none => none
    | some row2 =>
      match pySet g.data ij.1 row2 with
      | none => none
      | some data2 => some ⟨data2⟩

/-- Python's built-in `round`: round half to even. -/
def pyRound (x : ℚ) : ℤ :=
  let f := ⌊x⌋
  let r := x - f
  if r < 1 / 2 then f
  else if 1 / 2 < r then f + 1
  else if f % 2 = 0 then f else f + 1

/-- The rounding step of `HexGrid.nearest` (lines 100–106 of
`hextools.py`).  The orthonormal-to-axial transform on line 100 produces a
fractional axial pair `(p, q)` which `cubic` completes to the triple
`(p, q, -p - q)`; each component is rounded independently and the component
with the largest rounding error (first such index, as `list.index` returns)
is replaced by `sum(rounded) - rounded[max_index]`. -/
def hexRound (p q : ℚ) : Pos3 :=
  let w : ℚ := -p - q
  let r0 := pyRound p
  let r1 := pyRound q
  let r2 := pyRound w
  let d0 := |p - r0|
  let d1 := |q - r1|
  let d2 := |w - r2|
  let s := r0 + r1 + r2
  if d1 ≤ d0 ∧ d2 ≤ d0 then (s - r0, r1, r2)
  else if d2 ≤ d1 then (r0, s - r1, r2)
  else (r0, r1, s - r2)

/-! ## Deduction engine (`deduction.py`) -/

/-- `TERRAINS.values()` from `gameboard.py`, in insertion order. -/
def TERRAINS : List String := ["forest", "desert", "water", "swamp", "mountain"]

/-- `ANIMALS.values()` from `gameboard.py`. -/
def ANIMALS : List String := ["bear", "cougar"]

/-- The structure kinds appearing in `STRUCTURES` in `gameboard.py`. -/
def STRUCT_KINDS : List String := ["standing stone", "shack"]

/-- The structure colors appearing in `STRUCTURES` in `gameboard.py`. -/
def STRUCT_COLORS : List String := ["green", "white", "blue", "black"]

/-- Python `features.split(",")` on the underlying character list: split at
every comma, keeping empty chunks. -/
def splitComma : List Char → List (List Char)
  | [] => [[]]
  | c :: rest =>
    let r := splitComma rest
    if c = ',' then [] :: r
    else
      match r with
      | [] => [[c]]
      | g :: gs => (c :: g) :: gs

/-- `features.split(",")` for a string. -/
def featSplit (s : String) : List String :=
  (splitComma s.data).map fun cs => String.mk cs

/-- A `Decidable` instance for string `≤` that decides through the
character-list lexicographic order (Python compares strings by code
points), so that concrete comparisons reduce. -/
instance (priority := 2000) strDecLE : DecidableRel (α := String) (· ≤ ·) :=
  fun a b =>
    decidable_of_iff (¬ b.data < a.data)
      ((String.le_iff_toList_le.trans not_lt.symm).symm)

/-- Python `sorted` on a list of feature names (lexicographic string
order; equal strings are identical, so any sort into `≤` order gives the
same list as Python's stable sort). -/
def sortFeatures (l : List String) : List String :=
  l.insertionSort (· ≤ ·)

/-- `Clue`: the sorted feature tuple plus the negation flag, which are the
fields `__eq__` and `__hash__` compare. -/
structure Clue where
  features : List String
  negate : Bool
deriving DecidableEq, Repr

/-- The body of `Clue.__init__` after the feature string has been split:
a leading `"not"` is stripped and forces negation, then the features are
sorted. -/
def Clue.ofList (fs : List String) (negate : Bool) : Clue :=
  if fs.head? = some "not" then
    { features := sortFeatures fs.tail, negate := true }
  else
    { features := sortFeatures fs, negate := negate }

/-- `Clue.__init__(features, negate)`: split the comma-separated feature
string, then normalize. -/
def Clue.ofString (s : String) (negate : Bool) : Clue :=
  Clue.ofList (featSplit s) negate

/-- The radius computation at the end of `Clue.__init__`.  `none` models
the `IndexError` raised when the feature tuple or the first feature is
empty (`self.features[0]` / `self.features[0][0]`). -/
def Clue.radius (c : Clue) : Option ℕ :=
  match c.features with
  | [] => none
  | f :: _ =>
    if f ∈ ANIMALS then some (if c.features.length = 2 then 1 else 2)
    else if f ∈ TERRAINS then some (if c.features.length = 2 then 0 else 1)
    else
      match f.data with
      | [] => none
      | ch :: _ => if ch = 's' then some 2 else some 3

/-! ### Solver (`Game.solve` / `Game.solutions`) -/

/-- The two exception kinds `Game.solve` can raise: `ValueError` for a
duplicated clue (or for the empty intersection call) and
`IncompatibleCluesError` when the intersection is not a single cell. -/
inductive SolveErr where
  | valueError
  | incompatible
deriving DecidableEq, Repr

/-- `region.pop()` on a one-element set: the unique element. -/
def pickUnique (s : Finset Pos3) (h : s.card = 1) : Pos3 :=
  s.choose (fun _ => True) (by
    obtain ⟨a, ha⟩ := Finset.card_eq_one.mp h
    refine ⟨a, ⟨by simp [ha], trivial⟩, ?_⟩
    intro b hb
    rw [ha] at hb
    simpa using hb.1)

/-- `Game.solve(clue_list)` over the game's clue-to-region catalog `R`
(within `solutions` every looked-up clue is a catalog key, so the catalog
is modelled as a total map): reject duplicated clues, intersect the
regions, and succeed only on a one-cell intersection.  The `[]` case
models the `TypeError` of `set.intersection()` with no arguments, which
like the duplicate check never fires inside `solutions`. -/
def solve (R : Clue → Finset Pos3) (clue_list : List Clue) :
    Except SolveErr Pos3 :=
  if clue_list.dedup.length ≠ clue_list.length then .error .valueError
  else
    match clue_list.map R with
    | [] => .error .valueError
    | r :: rs =>
      let region := rs.foldl (· ∩ ·) r
      if h : region.card = 1 then .ok (pickUnique region h)
      else .error .incompatible

/-- Whether an exception is the `IncompatibleCluesError` that the inner
`except IncompatibleCluesError: pass` of `Game.solutions` swallows. -/
def isIncompatible (e : Except SolveErr Pos3) : Bool :=
  match e with
  | .error .incompatible => true
  | _ => false

/-- `itertools.combinations(clue_list, len(clue_list) - 1)`: every list
obtained from `clue_list` by removing exactly one element. -/
def removeOne : List α → List (List α)
  | [] => []
  | x :: xs => xs :: (removeOne xs).map (x :: ·)

/-- `itertools.product(*clue_sets)`: the Cartesian product, leftmost set
slowest. -/
def listProd : List (List α) → List (List α)
  | [] => [[]]
  | xs :: rest => xs.flatMap fun x => (listProd rest).map (x :: ·)

/-- The body of the `for clue_list in itertools.product(...)` loop of
`Game.solutions`: `some solution` when the combination is appended to the
result, `none` when any raised `ValueError` or `IncompatibleCluesError`
rejects it — in particular when some `(n-1)`-subset also solves, which
raises a `ValueError` caught by the outer handler. -/
def acceptCombo (R : Clue → Finset Pos3) (clue_list : List Clue) :
    Option Pos3 :=
  match solve R clue_list with
  | .error _ => none
  | .ok solution =>
    if (removeOne clue_list).all fun sub => isIncompatible (solve R sub)
    then some solution else none

/-- `Game.solutions`, with each player's clue set (or known-clue
singleton) given as a list: collect the solutions of all accepted
combinations, duplicates preserved. -/
def solutions (R : Clue → Finset Pos3) (clue_sets : List (List Clue)) :
    List Pos3 :=
  (listProd clue_sets).filterMap (acceptCombo R)

/-! ### Player constraint state (`Player`) -/

/-- The mutable fields of a `Player`: the candidate-clue dictionary (an
insertion-ordered association list, as Python dicts are), the optional
known clue, the marked-positive and marked-negative position sets, and
the player index. -/
structure PlayerState where
  clues : List (Clue × Finset Pos3)
  known_clue : Option Clue
  positives : Finset Pos3
  negatives : Finset Pos3
  number : ℕ
deriving DecidableEq

/-- Python dict lookup `self.clues[clue]` on the association list. -/
def lookupClue (clues : List (Clue × Finset Pos3)) (c : Clue) :
    Option (Finset Pos3) :=
  match clues.find? fun cr => cr.1 = c with
  | none => none
  | some cr => some cr.2

/-- `Player.restrict_clues`: drop every clue whose region meets a negative
or misses a positive, then, if exactly one clue remains, make it the known
clue. -/
def restrict_clues (p : PlayerState) : PlayerState :=
  let kept := p.clues.filter fun cr =>
    decide ((p.negatives ∩ cr.2) = ∅ ∧ (p.positives \ cr.2) = ∅)
  { p with
    clues := kept,
    known_clue :=
      match kept with
      | [cr] => some cr.1
      | _ => p.known_clue }

/-- `Player.add_clue(position, clue_type)`: record the observation, then
re-run restriction. -/
def add_clue (p : PlayerState) (position : Pos3) (clue_type : Bool) :
    PlayerState :=
  let p2 :=
    if clue_type then { p with positives := insert position p.positives }
    else { p with negatives := insert position p.negatives }
  restrict_clues p2

/-! ### Move selector (`Player.play`) -/

/-- The game state a play touches: the fully restricted board tile set,
the per-cell player-mark sequences of the grid (total over positions; the
regions iterated by `play` only hold on-board cells, for which `gethex`
succeeds), and the acting player. -/
structure GameState where
  tile_set : Finset Pos3
  marks : Pos3 → List (Option Bool)
  player : PlayerState

/-- The errors `Player.play` can raise before making any play:
`UnknownClueError`, the `KeyError` of `self.clues[self.known_clue]` when
the known clue has been restricted away, and `NoLegalPlayError`. -/
inductive PlayErr where
  | unknownClue
  | keyError
  | noLegalPlay
deriving DecidableEq, Repr

/-- The `possible_tiles` comprehension inside `Player.play`: the cells of
`region` whose mark sequence contains no `False` mark (from any player)
and which are in neither of this player's marked sets. -/
def possibleTiles (st : GameState) (region : Finset Pos3) : Finset Pos3 :=
  region.filter fun tile =>
    some false ∉ st.marks tile ∧
    tile ∉ st.player.positives ∪ st.player.negatives

/-- `Player.play(play_type, choice)`.  The strategy (`random.choice` or
the clue-count maximizer) is abstracted as the selection function `pick`.
An error result carries the state at the moment of the raise. -/
def play (st : GameState) (play_type : Bool) (pick : Finset Pos3 → Pos3) :
    Except (PlayErr × GameState) (GameState × Pos3) :=
  match st.player.known_clue with
  | none => .error (.unknownClue, st)
  | some k =>
    match lookupClue st.player.clues k with
    | none => .error (.keyError, st)
    | some reg =>
      let region := if play_type then reg else st.tile_set \ reg
      let possible := possibleTiles st region
      if possible = ∅ then .error (.noLegalPlay, st)
      else
        let chosen := pick possible
        let marks2 := fun pos =>
          if pos = chosen then (st.marks chosen).set st.player.number (some play_type)
          else st.marks pos
        let player2 :=
          if play_type then
            { st.player with positives := insert chosen st.player.positives }
          else
            { st.player with negatives := insert chosen st.player.negatives }
        .ok ({ st with marks := marks2, player := restrict_clues player2 }, chosen)

/-- The candidate set described by the specification's words (§4.6): the
known clue's region (or its complement in the valid board cells),
restricted to cells with no existing mark *for this player* and not in
this player's positive or negative sets. -/
def specPossibleTiles (st : GameState) (region : Finset Pos3) : Finset Pos3 :=
  region.filter fun tile =>
    (st.marks tile).getD st.player.number none = none ∧
    tile ∉ st.player.positives ∪ st.player.negatives

deriving instance DecidableEq for Except

/-! ### Concrete states used to witness and refute claims -/

/-- The candidate set with the specification's mark clause repaired to
what the code checks: no `False` mark from *any* player. -/
def amendedPossibleTiles (st : GameState) (region : Finset Pos3) :
    Finset Pos3 :=
  region.filter fun tile =>
    (∀ m ∈ st.marks tile, m ≠ some false) ∧
    tile ∉ st.player.positives ∧ tile ∉ st.player.negatives

/-- A grid is a stored r-by-c rectangle. -/
def rect (g : HexGrid α) (r c : ℕ) : Prop :=
  g.data.length = r ∧ ∀ row ∈ g.data, row.length = c

/-- A 2-by-2 grid with distinct contents per cell. -/
def exGrid : HexGrid ℕ := ⟨[[10, 11], [20, 21]]⟩

/-- Three single-feature clues for solver examples. -/
def cA : Clue := ⟨["a"], false⟩

def cB : Clue := ⟨["b"], false⟩

def cC : Clue := ⟨["c"], false⟩

/-- A catalog on which `[cA, cB, cC]` has the unique solution `(0,0,0)`
while every two-clue subset leaves two cells. -/
def R0 : Clue → Finset Pos3 := fun c =>
  if c = cA then {(0, 0, 0), (1, 0, -1), (2, 0, -2)}
  else if c = cB then {(0, 0, 0), (1, 0, -1), (3, 0, -3)}
  else if c = cC then {(0, 0, 0), (2, 0, -2), (3, 0, -3)}
  else ∅

/-- The known clue of the example player. -/
def K5 : Clue := ⟨["forest"], false⟩

/-- A state where cell `(0,0,0)` carries a negative mark from player 1
(index 1) and no mark at all for the acting player 0. -/
def CE5 : GameState :=
  { tile_set := {(0, 0, 0), (1, 0, -1)},
    marks := fun pos =>
      if pos = (0, 0, 0) then [none, some false, none, none, none]
      else [none, none, none, none, none],
    player :=
      { clues := [(K5, {(0, 0, 0), (1, 0, -1)})], known_clue := some K5,
        positives := ∅, negatives := ∅, number := 0 } }

/-- A supplied known clue whose region misses the recorded positive. -/
def KK : Clue := ⟨["desert"], false⟩

/-- The other candidate clue, which survives restriction. -/
def CC : Clue := ⟨["water"], false⟩

/-- A player built with known clue `KK` whose positive mark eliminates
`KK` and leaves exactly `CC`. -/
def P7 : PlayerState :=
  { clues := [(KK, {(0, 0, 0)}), (CC, {(1, 0, -1)})], known_clue := some KK,
    positives := {(1, 0, -1)}, negatives := ∅, number := 0 }

/-- A player with an empty candidate set and a supplied known clue. -/
def P7b : PlayerState :=
  { clues := [], known_clue := some KK,
    positives := ∅, negatives := ∅, number := 0 }

/-- A state whose player has no known clue, so `play` fails. -/
def ST8 : GameState :=
  { tile_set := ∅, marks := fun _ => [],
    player := { clues := [], known_clue := none,
                positives := ∅, negatives := ∅, number := 0 } }

/-- A fixed selection function. -/
def PICK0 : Finset Pos3 → Pos3 := fun _ => (0, 0, 0)

/-- The known clue of the succeeding example play. -/
def K6 : Clue := ⟨["swamp"], false⟩

/-- A state where `play` succeeds at `(0,0,0)`. -/
def ST6 : GameState :=
  { tile_set := {(0, 0, 0)},
    marks := fun _ => [none, none, none, none, none],
    player := { clues := [(K6, {(0, 0, 0)})], known_clue := some K6,
                positives := ∅, negatives := ∅, number := 0 } }

/-- The state after the successful example play. -/
def ST6R : GameState :=
  match play ST6 true PICK0 with
  | .ok (s, _) => s
  | .error _ => ST6

/-! ## Theorems -/

theorem adjacent_sumZero (p q : Pos3) (h : q ∈ adjacent p) : sumZero q := by
  simp only [adjacent, cubic, List.mem_cons, List.not_mem_nil, or_false] at h
  rcases h with h | h | h | h | h | h <;> subst h <;> simp only [sumZero] <;> ring

theorem expandLoop_sumZero (n : ℕ) :
    ∀ reg recent : Finset Pos3, (∀ p ∈ reg, sumZero p) →
      ∀ p ∈ expandLoop n reg recent, sumZero p := by
  induction n with
  | zero => intro reg recent h p hp; exact h p hp
  | succ n ih =>
    intro reg recent h p hp
    rw [expandLoop] at hp
    refine ih _ _ ?_ p hp
    intro q hq
    rcases Finset.mem_union.mp hq with hq | hq
    · exact h q hq
    · obtain ⟨r, _, hqr⟩ := Finset.mem_biUnion.mp hq
      exact adjacent_sumZero r q (List.mem_toFinset.mp hqr)

/-- C10: every element of `expand(region, r)` — whether the input cells
were axial pairs or full cubic triples — is a full cubic triple satisfying
`u + v + w = 0`: inputs are cubic-completed and adjacency steps preserve
the zero-sum invariant. -/
theorem expand_sum_zero (region : List HPos) (radius : ℕ) (p : Pos3)
    (hp : p ∈ expand region radius) : sumZero p := by
  refine expandLoop_sumZero radius _ _ ?_ p hp
  intro q hq
  rw [List.mem_toFinset] at hq
  obtain ⟨h, _, rfl⟩ := List.mem_map.mp hq
  cases h <;> simp only [cubic, sumZero] <;> ring

theorem expand_sum_zero_witness :
    (1, -1, 0) ∈ expand [HPos.ax 0 0, HPos.cub 0 1 5] 1 ∧ sumZero (1, -1, 0) :=
  ⟨by decide, expand_sum_zero [HPos.ax 0 0, HPos.cub 0 1 5] 1 (1, -1, 0) (by decide)⟩

/-- C3: the claim says the corrected triple always satisfies
`u + v + w = 0`, and the spec's intent (standard hex rounding) agrees —
but the code writes `rounded[max_index] = sum(rounded) - rounded[max_index]`
instead of `rounded[max_index] - sum(rounded)`.  At the exact center of
hex `(1, 0)` (fractional cubic `(1, 0, -1)`) the correction yields
`(-1, 0, -1)`, whose components sum to `-2`: the invariant is broken and
the subsequent lookup hits the wrong cell. -/
theorem hexRound_breaks_sum_zero :
    hexRound 1 0 = (-1, 0, -1) ∧ ¬ sumZero (hexRound 1 0) := by
  have h : hexRound 1 0 = (-1, 0, -1) := by norm_num [hexRound, pyRound]
  exact ⟨h, by rw [h]; decide⟩

theorem pyGet_eq_none_iff (l : List α) (i : ℤ) :
    pyGet l i = none ↔ i < -(l.length : ℤ) ∨ (l.length : ℤ) ≤ i := by
  unfold pyGet
  split_ifs with h1 h2
  · rw [List.get?_eq_none]
    omega
  · rw [List.get?_eq_none]
    omega
  · simp only [true_iff]
    omega

theorem pyGet_mem (l : List α) (i : ℤ) (a : α) (h : pyGet l i = some a) :
    a ∈ l := by
  unfold pyGet at h
  split_ifs at h <;> exact List.get?_mem h

theorem pySet_eq_none_iff (l : List α) (i : ℤ) (v : α) :
    pySet l i v = none ↔ i < -(l.length : ℤ) ∨ (l.length : ℤ) ≤ i := by
  unfold pySet
  split_ifs with h1 h2 h3 <;> simp <;> omega

/-- C4 counterexample: on the 2×2 grid `exGrid` the axial coordinate
`(-1, 0)` translates to array index `(-1, -1)`, which lies outside the
stored rectangle, yet `gethex` does not fail: Python's negative indexing
wraps around and reads the content `21` of the cell stored at array index
`(1, 1)` (axial `(1, 1)`), and `sethex` likewise overwrites that other
cell. -/
theorem gethex_negative_index_wraps :
    axial_to_array (-1) 0 = (-1, -1) ∧
    exGrid.gethex (-1, 0) = some 21 ∧
    exGrid.gethex (1, 1) = some 21 ∧
    exGrid.sethex (-1, 0) 99 = some ⟨[[10, 11], [20, 99]]⟩ := by
  decide

/-- C4 amended: `gethex`/`sethex` on an r-by-c grid fail with the
out-of-bounds condition exactly when the translated array index falls
outside `[-r, r) × [-c, c)`; translated indices with negative components
inside that range do not fail — by Python indexing they access the cell
counted from the end of the row/column (as the counterexample shows). -/
theorem gethex_sethex_bounds (g : HexGrid α) (r c : ℕ) (u v : ℤ) (val : α)
    (hg : rect g r c) :
    (g.gethex (u, v) = none ↔
      ¬(-(r : ℤ) ≤ (axial_to_array u v).1 ∧ (axial_to_array u v).1 < r ∧
        -(c : ℤ) ≤ (axial_to_array u v).2 ∧ (axial_to_array u v).2 < c)) ∧
    (g.sethex (u, v) val = none ↔
      ¬(-(r : ℤ) ≤ (axial_to_array u v).1 ∧ (axial_to_array u v).1 < r ∧
        -(c : ℤ) ≤ (axial_to_array u v).2 ∧ (axial_to_array u v).2 < c)) := by
  obtain ⟨hlen, hrows⟩ := hg
  constructor
  · unfold HexGrid.gethex
    cases hrow : pyGet g.data (axial_to_array u v).1 with
    | none =>
      simp only [hrow]
      rw [pyGet_eq_none_iff, hlen] at hrow
      exact iff_of_true trivial (by omega)
    | some row =>
      have hin : ¬((axial_to_array u v).1 < -(g.data.length : ℤ) ∨
          (g.data.length : ℤ) ≤ (axial_to_array u v).1) := by
        intro hx
        rw [← pyGet_eq_none_iff] at hx
        rw [hrow] at hx
        cases hx
      rw [hlen] at hin
      have hrl : row.length = c := hrows row (pyGet_mem _ _ _ hrow)
      simp only [hrow]
      rw [pyGet_eq_none_iff, hrl]
      omega
  · unfold HexGrid.sethex
    cases hrow : pyGet g.data (axial_to_array u v).1 with
    | none =>
      simp only [hrow]
      rw [pyGet_eq_none_iff, hlen] at hrow
      exact iff_of_true trivial (by omega)
    | some row =>
      have hin : ¬((axial_to_array u v).1 < -(g.data.length : ℤ) ∨
          (g.data.length : ℤ) ≤ (axial_to_array u v).1) := by
        intro hx
        rw [← pyGet_eq_none_iff] at hx
        rw [hrow] at hx
        cases hx
      have hrl : row.length = c := hrows row (pyGet_mem _ _ _ hrow)
      simp only [hrow]
      cases hset : pySet row (axial_to_array u v).2 val with
      | none =>
        simp only [hset]
        rw [pySet_eq_none_iff, hrl] at hset
        rw [hlen] at hin
        exact iff_of_true trivial (by omega)
      | some row2 =>
        have hset2 : ¬((axial_to_array u v).2 < -(row.length : ℤ) ∨
            (row.length : ℤ) ≤ (axial_to_array u v).2) := by
          intro hx
          rw [← pySet_eq_none_iff row _ val] at hx
          rw [hset] at hx
          cases hx
        simp only [hset]
        cases hdat : pySet g.data (axial_to_array u v).1 row2 with
        | none =>
          rw [pySet_eq_none_iff] at hdat
          exact absurd hdat hin
        | some data2 =>
          simp only [hdat]
          rw [hlen] at hin
          rw [hrl] at hset2
          exact iff_of_false (by simp) (by intro hx; omega)

theorem gethex_sethex_bounds_witness :
    rect exGrid 2 2 ∧
    (exGrid.gethex (5, 0) = none ↔
      ¬(-(2 : ℤ) ≤ (axial_to_array 5 0).1 ∧ (axial_to_array 5 0).1 < 2 ∧
        -(2 : ℤ) ≤ (axial_to_array 5 0).2 ∧ (axial_to_array 5 0).2 < 2)) :=
  ⟨⟨rfl, by decide⟩, (gethex_sethex_bounds exGrid 2 2 5 0 77 ⟨rfl, by decide⟩).1⟩

/-- C1 counterexample: the claimed lookup table gives radius 0 to a
single-terrain clue and radius 1 to an animal-territory clue; the code
attaches radius 1 to `Clue("forest")` and radius 2 to `Clue("bear")`. -/
theorem clue_radius_ne_claim :
    (Clue.ofString "forest" false).radius = some 1 ∧
    (Clue.ofString "forest" false).radius ≠ some 0 ∧
    (Clue.ofString "bear" false).radius = some 2 ∧
    (Clue.ofString "bear" false).radius ≠ some 1 := by
  decide

/-- C1 amended: for every feature clue produced during catalog generation,
the attached expansion radius follows the fixed lookup table actually
coded: radius 1 for a single-terrain clue, 2 for an animal-territory
clue, 1 for the combined-animal clue, 2 for a structure-kind clue, and 3
for a structure-color clue. -/
theorem clue_radius_table :
    (∀ t ∈ TERRAINS, (Clue.ofString t false).radius = some 1) ∧
    (∀ a ∈ ANIMALS, (Clue.ofString a false).radius = some 2) ∧
    (Clue.ofString "bear,cougar" false).radius = some 1 ∧
    (∀ k ∈ STRUCT_KINDS, (Clue.ofString k false).radius = some 2) ∧
    (∀ c ∈ STRUCT_COLORS, (Clue.ofString c false).radius = some 3) := by
  decide

theorem clue_radius_table_witness :
    "forest" ∈ TERRAINS ∧ (Clue.ofString "forest" false).radius = some 1 :=
  ⟨by decide, clue_radius_table.1 "forest" (by decide)⟩

theorem sortFeatures_perm_eq {l₁ l₂ : List String} (h : l₁.Perm l₂) :
    sortFeatures l₁ = sortFeatures l₂ := by
  have s₁ : List.Sorted (· ≤ ·) (sortFeatures l₁) := List.sorted_insertionSort _ _
  have s₂ : List.Sorted (· ≤ ·) (sortFeatures l₂) := List.sorted_insertionSort _ _
  exact List.eq_of_perm_of_sorted
    ((List.perm_insertionSort _ _).trans (h.trans (List.perm_insertionSort _ _).symm))
    s₁ s₂

/-- C9: clue construction normalizes its input — feature strings listing
the same feature names in different orders (the leading token not being
the `"not"` marker) construct equal clues, and a string whose first token
is `"not"` constructs the clue built from the remaining features with the
negation flag forced to true regardless of the `negate` argument. -/
theorem clue_normalization (s t : String) (rest : List String) (b b' : Bool) :
    ((featSplit s).Perm (featSplit t) → (featSplit s).head? ≠ some "not" →
      (featSplit t).head? ≠ some "not" →
      Clue.ofString s b = Clue.ofString t b) ∧
    (featSplit s = "not" :: rest → rest.head? ≠ some "not" →
      Clue.ofString s b' = Clue.ofList rest true) := by
  constructor
  · intro hperm h1 h2
    unfold Clue.ofString Clue.ofList
    rw [if_neg h1, if_neg h2]
    rw [sortFeatures_perm_eq hperm]
  · intro hs hrest
    unfold Clue.ofString Clue.ofList
    rw [hs]
    have hc : ("not" :: rest).head? = some "not" := rfl
    rw [if_pos hc, if_neg hrest]
    rfl

theorem clue_normalization_witness :
    (featSplit "cougar,bear").Perm (featSplit "bear,cougar") ∧
    Clue.ofString "cougar,bear" false = Clue.ofString "bear,cougar" false ∧
    featSplit "not,mountain" = ["not", "mountain"] ∧
    Clue.ofString "not,mountain" false = Clue.ofList ["mountain"] true :=
  ⟨by decide,
   (clue_normalization "cougar,bear" "bear,cougar" [] false false).1
     (by decide) (by decide) (by decide),
   by decide,
   (clue_normalization "not,mountain" "" ["mountain"] false false).2
     (by decide) (by decide)⟩

theorem isIncompatible_iff (e : Except SolveErr Pos3) :
    isIncompatible e = true ↔ e = .error .incompatible := by
  cases e with
  | error err => cases err <;> simp [isIncompatible]
  | ok p => simp [isIncompatible]

theorem acceptCombo_eq_some (R : Clue → Finset Pos3) (cl : List Clue)
    (sol : Pos3) :
    acceptCombo R cl = some sol ↔
      solve R cl = .ok sol ∧
      ∀ sub ∈ removeOne cl, solve R sub = .error .incompatible := by
  unfold acceptCombo
  cases h : solve R cl with
  | error e => simp [h]
  | ok p =>
    simp only [h]
    by_cases hall :
        ((removeOne cl).all fun sub => isIncompatible (solve R sub)) = true
    · rw [if_pos hall]
      rw [List.all_eq_true] at hall
      constructor
      · intro h2
        injection h2 with h2
        subst h2
        exact ⟨rfl, fun sub hsub => (isIncompatible_iff _).mp (hall sub hsub)⟩
      · rintro ⟨h2, -⟩
        injection h2 with h2
        subst h2
        rfl
    · rw [if_neg hall]
      rw [List.all_eq_true] at hall
      constructor
      · intro h2
        cases h2
      · rintro ⟨-, hsubs⟩
        exact absurd
          (fun sub hsub => (isIncompatible_iff _).mpr (hsubs sub hsub)) hall

/-- C2: a combination of clues is accepted by the loop body of
`Game.solutions` — its solution appended to the result — exactly when
`solve` succeeds on the full combination with a unique cell and fails
with the incompatible-clues condition on every (n-1)-subset; and the
result of `solutions` consists exactly of the solutions of accepted
combinations from the Cartesian product, so a combination containing a
redundant clue (one whose removal leaves a unique solution) contributes
nothing. -/
theorem solutions_minimality (R : Clue → Finset Pos3)
    (clue_sets : List (List Clue)) (cl : List Clue) (sol : Pos3) :
    (acceptCombo R cl = some sol ↔
      solve R cl = .ok sol ∧
      ∀ sub ∈ removeOne cl, solve R sub = .error .incompatible) ∧
    (sol ∈ solutions R clue_sets ↔
      ∃ combo ∈ listProd clue_sets, acceptCombo R combo = some sol) := by
  refine ⟨acceptCombo_eq_some R cl sol, ?_⟩
  unfold solutions
  exact List.mem_filterMap

theorem solutions_minimality_witness :
    (0, 0, 0) ∈ solutions R0 [[cA], [cB], [cC]] :=
  (solutions_minimality R0 [[cA], [cB], [cC]] [cA, cB, cC] (0, 0, 0)).2.mpr
    ⟨[cA, cB, cC], by decide,
     (solutions_minimality R0 [[cA], [cB], [cC]] [cA, cB, cC] (0, 0, 0)).1.mpr
       ⟨by decide, by decide⟩⟩

/-- C5 counterexample: in state `CE5`, with the known clue's region
`{(0,0,0), (1,0,-1)}` and a positive play, the claim's candidate set
(`specPossibleTiles`, restricted only by marks *for this player*) keeps
cell `(0,0,0)`, but the code's `possible_tiles` excludes it because
player 1 holds a negative mark there: the two sets differ. -/
theorem possibleTiles_ne_spec :
    CE5.player.known_clue = some K5 ∧
    lookupClue CE5.player.clues K5 = some {(0, 0, 0), (1, 0, -1)} ∧
    possibleTiles CE5 {(0, 0, 0), (1, 0, -1)} = {(1, 0, -1)} ∧
    specPossibleTiles CE5 {(0, 0, 0), (1, 0, -1)} = {(0, 0, 0), (1, 0, -1)} ∧
    possibleTiles CE5 {(0, 0, 0), (1, 0, -1)} ≠
      specPossibleTiles CE5 {(0, 0, 0), (1, 0, -1)} := by
  decide

/-- C5 amended: for a player with a known clue whose region is `reg` in
the candidate dictionary, the set of cells `play` chooses from equals the
known clue's satisfying region if marking positive — its complement
within valid board cells if marking negative — restricted to the cells
whose mark sequence holds no negative mark from *any* player and which
are in neither of this player's positive or negative sets. -/
theorem possibleTiles_characterization (st : GameState) (play_type : Bool)
    (k : Clue) (reg : Finset Pos3)
    (_hk : st.player.known_clue = some k)
    (_hreg : lookupClue st.player.clues k = some reg) :
    possibleTiles st (if play_type then reg else st.tile_set \ reg) =
      amendedPossibleTiles st (if play_type then reg else st.tile_set \ reg) := by
  ext t
  simp only [possibleTiles, amendedPossibleTiles, Finset.mem_filter,
    Finset.mem_union, not_or]
  constructor
  · rintro ⟨ht, hm, hp, hn⟩
    exact ⟨ht, fun m hm2 he => hm (he ▸ hm2), hp, hn⟩
  · rintro ⟨ht, hm, hp, hn⟩
    exact ⟨ht, fun hmem => hm _ hmem rfl, hp, hn⟩

theorem possibleTiles_characterization_witness :
    CE5.player.known_clue = some K5 ∧
    possibleTiles CE5
        (if true then {(0, 0, 0), (1, 0, -1)}
         else CE5.tile_set \ {(0, 0, 0), (1, 0, -1)}) =
      amendedPossibleTiles CE5
        (if true then {(0, 0, 0), (1, 0, -1)}
         else CE5.tile_set \ {(0, 0, 0), (1, 0, -1)}) :=
  ⟨rfl, possibleTiles_characterization CE5 true K5 {(0, 0, 0), (1, 0, -1)}
    rfl (by decide)⟩

theorem restrict_clues_clues (p : PlayerState) :
    (restrict_clues p).clues = p.clues.filter fun cr =>
      decide ((p.negatives ∩ cr.2) = ∅ ∧ (p.positives \ cr.2) = ∅) := rfl

/-- C6: the candidate clue set never grows: `restrict_clues` keeps a
sublist of the entries (it only removes, never adds or replaces), so its
size is non-increasing across `restrict_clues`, `add_clue` and every
successful `play`. -/
theorem clue_count_monotone (p : PlayerState) (position : Pos3) (b : Bool)
    (st st2 : GameState) (pick : Finset Pos3 → Pos3) (chosen : Pos3) :
    (restrict_clues p).clues.Sublist p.clues ∧
    (restrict_clues p).clues.length ≤ p.clues.length ∧
    (add_clue p position b).clues.length ≤ p.clues.length ∧
    (play st b pick = .ok (st2, chosen) →
      st2.player.clues.length ≤ st.player.clues.length) := by
  have hsub : ∀ q : PlayerState, (restrict_clues q).clues.Sublist q.clues := by
    intro q
    rw [restrict_clues_clues]
    exact List.filter_sublist _
  have hlen : ∀ q : PlayerState,
      (restrict_clues q).clues.length ≤ q.clues.length :=
    fun q => (hsub q).length_le
  refine ⟨hsub p, hlen p, ?_, ?_⟩
  · unfold add_clue
    cases b
    · exact hlen { p with negatives := insert position p.negatives }
    · exact hlen { p with positives := insert position p.positives }
  · intro hok
    unfold play at hok
    cases hkc : st.player.known_clue with
    | none =>
      simp only [hkc] at hok
      exact Except.noConfusion hok
    | some k =>
      simp only [hkc] at hok
      cases hlu : lookupClue st.player.clues k with
      | none =>
        simp only [hlu] at hok
        exact Except.noConfusion hok
      | some reg =>
        simp only [hlu] at hok
        by_cases hemp :
            possibleTiles st (if b then reg else st.tile_set \ reg) = ∅
        · rw [if_pos hemp] at hok
          cases hok
        · rw [if_neg hemp] at hok
          injection hok with h2
          rw [Prod.mk.injEq] at h2
          obtain ⟨h1, -⟩ := h2
          subst h1
          refine le_trans (hlen _) ?_
          cases b <;> exact le_rfl

theorem clue_count_monotone_witness :
    play ST6 true PICK0 = .ok (ST6R, (0, 0, 0)) ∧
    ST6R.player.clues.length ≤ ST6.player.clues.length :=
  ⟨rfl,
   (clue_count_monotone ST6.player (0, 0, 0) true ST6 ST6R PICK0
     (0, 0, 0)).2.2.2 rfl⟩

/-- C7 counterexample: player `P7` was constructed with known clue `KK`,
but its recorded positive lies outside `KK`'s region, so restriction
removes `KK`, leaves exactly `CC`, and overwrites the known clue with
`CC ≠ KK` — a supplied known clue *is* changed by the narrowing. -/
theorem known_clue_overwritten :
    P7.known_clue = some KK ∧
    (restrict_clues P7).known_clue = some CC ∧
    CC ≠ KK := by
  decide

/-- C7 amended: whenever restriction leaves exactly one candidate clue it
becomes the known clue — overwriting any previously supplied known clue
if that differs (and merely confirming it when the supplied clue is the
survivor) — and whenever the remainder does not have exactly one entry
the known clue is left unchanged. -/
theorem restrict_known_clue (p : PlayerState) :
    (∀ cr, (restrict_clues p).clues = [cr] →
      (restrict_clues p).known_clue = some cr.1) ∧
    ((restrict_clues p).clues.length ≠ 1 →
      (restrict_clues p).known_clue = p.known_clue) := by
  have hkc : (restrict_clues p).known_clue =
      match (restrict_clues p).clues with
      | [cr] => some cr.1
      | _ => p.known_clue := rfl
  constructor
  · intro cr h
    rw [hkc, h]
  · intro h
    rw [hkc]
    cases hc : (restrict_clues p).clues with
    | nil => rfl
    | cons a l =>
      cases l with
      | nil => exact absurd (by rw [hc]; rfl) h
      | cons a2 l2 => rfl

theorem restrict_known_clue_witness :
    (restrict_clues P7).clues = [(CC, {(1, 0, -1)})] ∧
    (restrict_clues P7).known_clue = some CC ∧
    (restrict_clues P7b).clues.length ≠ 1 ∧
    (restrict_clues P7b).known_clue = P7b.known_clue :=
  ⟨by decide,
   (restrict_known_clue P7).1 (CC, {(1, 0, -1)}) (by decide),
   by decide,
   (restrict_known_clue P7b).2 (by decide)⟩

/-- C8: a `play` call that fails — with the unknown-clue or no-legal-play
condition (or the key-error on the known clue's region) — raises before
any mutation: the state carried by the error, covering the player's
positive and negative sets, candidate clues and known clue and every
cell's mark sequence, is exactly the input state. -/
theorem play_error_state_unchanged (st : GameState) (b : Bool)
    (pick : Finset Pos3 → Pos3) (e : PlayErr) (st2 : GameState)
    (h : play st b pick = .error (e, st2)) : st2 = st := by
  unfold play at h
  cases hkc : st.player.known_clue with
  | none =>
    simp only [hkc] at h
    injection h with h2
    rw [Prod.mk.injEq] at h2
    exact h2.2.symm
  | some k =>
    simp only [hkc] at h
    cases hlu : lookupClue st.player.clues k with
    | none =>
      simp only [hlu] at h
      injection h with h2
      rw [Prod.mk.injEq] at h2
      exact h2.2.symm
    | some reg =>
      simp only [hlu] at h
      by_cases hemp :
          possibleTiles st (if b then reg else st.tile_set \ reg) = ∅
      · rw [if_pos hemp] at h
        injection h with h2
        rw [Prod.mk.injEq] at h2
        exact h2.2.symm
      · rw [if_neg hemp] at h
        cases h

theorem play_error_state_unchanged_witness :
    play ST8 true PICK0 = .error (.unknownClue, ST8) ∧ ST8 = ST8 :=
  ⟨rfl, play_error_state_unchanged ST8 true PICK0 .unknownClue ST8 rfl⟩
